import Mathlib

/-!
Shallow embedding of `provision/docker.go` from the gofn repository, and
theorems settling the specification claims about it.

Modelling conventions:
* Go `error` values are `Option GoError` (`none` is Go's `nil` error);
  fallible operations returning a value use `Except GoError α`.
* The docker client is replaced by an oracle structure whose fields give
  the outcome of each engine call the modelled function performs; the
  function additionally returns the trace of engine calls it made, so
  statements about "which calls happen, in what order, with what
  arguments" can be made.
* `bytes.Buffer` contents are `String`; a `nil` buffer pointer is `none`.
* The unbuffered result channel of `FnWaitContainer` is modelled by the
  list of values its goroutine attempts to send, in program order; a
  single-read consumer (as in `FnRun`) receives the head of that list.
-/

namespace Gofn

/-- Equality of modelled Go results (`Except` values) is decidable, so
concrete runs can be checked by evaluation. -/
instance exceptDecEq {ε α : Type} [DecidableEq ε] [DecidableEq α] :
    DecidableEq (Except ε α)
  | .error e, .error e' =>
    if h : e = e' then .isTrue (by rw [h]) else .isFalse (by simp [h])
  | .error _, .ok _ => .isFalse (by simp)
  | .ok _, .error _ => .isFalse (by simp)
  | .ok a, .ok a' =>
    if h : a = a' then .isTrue (by rw [h]) else .isFalse (by simp [h])

/-- The error values of the provision package: its three exported sentinel
errors, plus `engineErr msg` for an arbitrary error produced by the docker
client, carrying the string its `Error()` method returns. -/
inductive GoError where
  | errImageNotFound
  | errContainerNotFound
  | errContainerExecutionFailed
  | engineErr (msg : String)
deriving DecidableEq, Repr

/-- The Go `Error()` message of an error value (`errors.New` texts from
`docker.go` for the sentinels). -/
def GoError.message : GoError → String
  | .errImageNotFound => "provision: image not found"
  | .errContainerNotFound => "provision: container not found"
  | .errContainerExecutionFailed => "provision: container exited with failure"
  | .engineErr m => m

/-- Whether `sub` occurs contiguously in the character list. -/
def containsSub (sub : List Char) : List Char → Bool
  | [] => sub.isPrefixOf []
  | c :: rest => sub.isPrefixOf (c :: rest) || containsSub sub rest

/-- Go `strings.Contains s substr`, as containment of character sequences. -/
def goContains (s substr : String) : Bool :=
  containsSub substr.toList s.toList

/-- `FnWaitContainer`'s goroutine body, given the outcome
`(code, err) := client.WaitContainer(containerID)`: the list of values it
attempts to send on the unbuffered channel, in program order.  The Go code
has no `return` after the first two sends, so the sends accumulate:

    if err != nil { errs <- err }
    if code != 0 { errs <- ErrContainerExecutionFailed }
    errs <- nil
-/
def fnWaitContainerSends (code : Int) (err : Option GoError) : List (Option GoError) :=
  (match err with
   | some e => [some e]
   | none => []) ++
  (if code ≠ 0 then [some GoError.errContainerExecutionFailed] else []) ++
  [none]

/-- Outcomes of the docker-client calls made during `FnRun`:
`startErr` for `client.StartContainer`, `attachErr` for
`client.AttachToContainerNonBlocking`, `(waitCode, waitErr)` for
`client.WaitContainer`, and for `client.Logs` the bytes it writes to the
stdout and stderr sinks together with its returned error. -/
structure RunWorld where
  startErr : Option GoError
  attachErr : Option GoError
  waitCode : Int
  waitErr : Option GoError
  logsStdout : String
  logsStderr : String
  logsErr : Option GoError
deriving DecidableEq, Repr

/-- The values `FnRun` returns: the (possibly nil) stdout and stderr
buffers and the error. -/
structure RunResult where
  Stdout : Option String
  Stderr : Option String
  err : Option GoError
deriving DecidableEq, Repr

/-- The stages of `FnRun` that reach the docker client, for trace
statements: `FnStart`, `FnAttach`, the wait call of `FnWaitContainer`'s
goroutine, and `FnLogs`. -/
inductive RunEvent where
  | start
  | attach
  | wait
  | logs
deriving DecidableEq, Repr

/-- `FnRun`: start the container, attach to stream the input, receive one
value from `FnWaitContainer`'s channel, then fetch logs into fresh buffers
with the log error discarded (`_ = FnLogs(...)`).  Returns the result and
the trace of client calls.  The named return buffers are `nil` on the
early returns (start or attach failure), because `stdout`/`stderr` are
only allocated after the wait. -/
def fnRun (w : RunWorld) : RunResult × List RunEvent :=
  match w.startErr with
  | some e => (⟨none, none, some e⟩, [RunEvent.start])
  | none =>
    match w.attachErr with
    | some e => (⟨none, none, some e⟩, [RunEvent.start, RunEvent.attach])
    | none =>
      let err := (fnWaitContainerSends w.waitCode w.waitErr).headD none
      (⟨some w.logsStdout, some w.logsStderr, err⟩,
        [RunEvent.start, RunEvent.attach, RunEvent.wait, RunEvent.logs])

/-- The number of values `FnWaitContainer`'s goroutine attempts to send. -/
def waitSendCount (code : Int) (err : Option GoError) : Nat :=
  (fnWaitContainerSends code err).length

/-! ### Go `path` package: `Clean` and `Join`

`GetImageName` calls `path.Join("gofn", opts.ImageName)`.  Go's
`path.Join` joins the elements, starting from the first non-empty one,
with `/` and then applies `path.Clean`.  `Clean` is modelled here by its
documented component semantics: split on `/`, drop empty and `.`
components, resolve `..` against a stack (an inner `..` removes the
preceding component; leading `..`s are kept on a relative path and
dropped on a rooted one), and re-join, returning `.` for an empty
relative result and `/` for an empty rooted one. -/

/-- Split a character list on `/` (like `strings.Split(s, "/")`). -/
def splitSlash : List Char → List (List Char)
  | [] => [[]]
  | c :: rest =>
    if c = '/' then [] :: splitSlash rest
    else
      match splitSlash rest with
      | [] => [[c]]
      | h :: t => (c :: h) :: t

/-- Re-join components with `/`. -/
def joinSlash : List (List Char) → List Char
  | [] => []
  | [x] => x
  | x :: xs => x ++ '/' :: joinSlash xs

/-- The component pass of `path.Clean`.  `acc` holds the output components
in reverse order. -/
def cleanStack (rooted : Bool) : List (List Char) → List (List Char) → List (List Char)
  | acc, [] => acc.reverse
  | acc, c :: rest =>
    if c = [] ∨ c = ['.'] then cleanStack rooted acc rest
    else if c = ['.', '.'] then
      match acc with
      | [] =>
        if rooted then cleanStack rooted [] rest
        else cleanStack rooted [['.', '.']] rest
      | top :: accRest =>
        if top = ['.', '.'] then cleanStack rooted (c :: top :: accRest) rest
        else cleanStack rooted accRest rest
    else cleanStack rooted (c :: acc) rest

/-- Go `path.Clean`. -/
def pathClean (p : String) : String :=
  if p = "" then "."
  else if p.toList.head? = some '/' then
    (if joinSlash (cleanStack true [] (splitSlash p.toList)) = [] then "/"
     else String.mk ('/' :: joinSlash (cleanStack true [] (splitSlash p.toList))))
  else
    (if joinSlash (cleanStack false [] (splitSlash p.toList)) = [] then "."
     else String.mk (joinSlash (cleanStack false [] (splitSlash p.toList))))

/-- Go `path.Join` restricted to two elements, as `GetImageName` uses it:
clean the `/`-join starting at the first non-empty element. -/
def pathJoin (a b : String) : String :=
  if a ≠ "" then pathClean (a ++ "/" ++ b)
  else if b ≠ "" then pathClean b
  else ""

/-! ### BuildOptions and the image resolver -/

/-- `docker.AuthConfiguration`, the fields `docker.go` uses. -/
structure AuthConfiguration where
  Username : String
  Password : String
  Email : String
  ServerAddress : String
  IdentityToken : String
deriving DecidableEq, Repr

/-- `provision.BuildOptions`.  The `Iaas` field is an interface value the
provision code never touches; it is modelled as `Unit`. -/
structure BuildOptions where
  ContextDir : String
  Dockerfile : String
  DoNotUsePrefixImageName : Bool
  ImageName : String
  RemoteURI : String
  StdIN : String
  Iaas : Unit
  Auth : AuthConfiguration
  ForcePull : Bool
deriving DecidableEq, Repr

/-- `BuildOptions.GetImageName`: the image name, prefixed with `gofn` via
`path.Join` unless `DoNotUsePrefixImageName` is set. -/
def BuildOptions.GetImageName (opts : BuildOptions) : String :=
  if opts.DoNotUsePrefixImageName then opts.ImageName
  else pathJoin "gofn" opts.ImageName

/-- Modelled from the external library: `go-dockerclient`'s
`ParseRepositoryTag` (not part of this repository).  It drops a digest
(the part from the first `@` on), then splits off a tag at the last `:`
of the remainder provided the candidate tag contains no `/`. -/
def parseRepositoryTag (repoTag : String) : String × String :=
  let base := repoTag.toList.takeWhile (fun c => c ≠ '@')
  match (List.range base.length).filter (fun i => base.getD i ' ' = ':') |>.getLast? with
  | none => (String.mk base, "")
  | some n =>
    let tag := base.drop (n + 1)
    if tag.contains '/' then (String.mk base, "")
    else (String.mk (base.take n), String.mk tag)

/-- `parseDockerImage`: repository/tag split used by `FnPull`.  When the
library reports no tag, a name carrying a digest (`@`) is sent whole as
the repository with an empty tag; otherwise the tag defaults to
`latest`. -/
def parseDockerImage (image : String) : String × String :=
  let rt := parseRepositoryTag image
  if rt.2 ≠ "" then rt
  else if image.toList.contains '@' then (image, rt.2)
  else (rt.1, "latest")

/-- Outcomes of the docker-client calls `FnImageBuild` may perform:
`authStatus` for `client.AuthCheck` (error, or the `IdentityToken` of the
returned status), `buildErr` for `client.BuildImage` together with the
bytes the build writes to its output stream, and `pullErr` for
`client.PullImage`. -/
structure BuildWorld where
  authStatus : Except GoError String
  buildErr : Option GoError
  buildOutput : String
  pullErr : Option GoError
deriving Repr

/-- A docker-client call made during `FnImageBuild`/`FnPull`, recording
the arguments passed and a snapshot of the (mutated) `BuildOptions` at
the moment of the call. -/
inductive EngineCall where
  | authCheck (auth : AuthConfiguration) (snapshot : BuildOptions)
  | buildImage (name : String) (snapshot : BuildOptions)
  | pullImage (repo tag : String) (auth : AuthConfiguration) (snapshot : BuildOptions)
deriving DecidableEq, Repr

/-- The options snapshot an engine call was made against. -/
def EngineCall.snapshot : EngineCall → BuildOptions
  | .authCheck _ o => o
  | .buildImage _ o => o
  | .pullImage _ _ _ o => o

/-- Whether an engine call is a `PullImage` call. -/
def isPullCall : EngineCall → Bool
  | .pullImage _ _ _ _ => true
  | _ => false

/-- Whether credential fields are present in the sense of `auth`:
`(Email != "" || Username != "") && Password != ""`. -/
def credsPresent (a : AuthConfiguration) : Bool :=
  (a.Email ≠ "" || a.Username ≠ "") && a.Password ≠ ""

/-- The `auth` helper: with credentials present it defaults an empty
`ServerAddress` to the public registry, calls `AuthCheck`, and on success
stores the status's `IdentityToken` into `opts.Auth`.  Returns the error,
the mutated options, and the calls made. -/
def auth (w : BuildWorld) (opts : BuildOptions) :
    Option GoError × BuildOptions × List EngineCall :=
  if credsPresent opts.Auth then
    let opts1 :=
      if opts.Auth.ServerAddress = "" then
        { opts with Auth := { opts.Auth with ServerAddress := "https://index.docker.io/v1/" } }
      else opts
    match w.authStatus with
    | .error e => (some e, opts1, [EngineCall.authCheck opts1.Auth opts1])
    | .ok tok =>
      (none,
       { opts1 with Auth := { opts1.Auth with IdentityToken := tok } },
       [EngineCall.authCheck opts1.Auth opts1])
  else (none, opts, [])

/-- `FnPull`: split `opts.GetImageName()` into repository and tag and call
`client.PullImage` with them and `opts.Auth`. -/
def fnPull (w : BuildWorld) (opts : BuildOptions) : Option GoError × List EngineCall :=
  let rt := parseDockerImage opts.GetImageName
  (w.pullErr, [EngineCall.pullImage rt.1 rt.2 opts.Auth opts])

/-- The values `FnImageBuild` returns: the resolved name, the (possibly
nil) captured build output buffer, and the error. -/
structure BuildResult where
  Name : String
  Stdout : Option String
  err : Option GoError
deriving DecidableEq, Repr

/-- The two defaulting assignments at the top of `FnImageBuild`: an empty
`Dockerfile` becomes `Dockerfile`, and an empty `ContextDir` with no
`RemoteURI` becomes `./`. -/
def applyBuildDefaults (opts0 : BuildOptions) : BuildOptions :=
  let opts1 := if opts0.Dockerfile = "" then { opts0 with Dockerfile := "Dockerfile" } else opts0
  if opts1.ContextDir = "" ∧ opts1.RemoteURI = "" then { opts1 with ContextDir := "./" }
  else opts1

/-- `FnImageBuild`: default `Dockerfile` and `ContextDir`, authenticate,
then either pull (`ForcePull`) or build; a build error whose message
contains `Cannot locate specified Dockerfile:` falls back to one pull of
the resolved name, any other build error is returned as-is.  Returns the
result, the options as mutated through the pointer, and the trace of
client calls. -/
def fnImageBuild (w : BuildWorld) (opts0 : BuildOptions) :
    BuildResult × BuildOptions × List EngineCall :=
  match auth w (applyBuildDefaults opts0) with
  | (some e, opts3, tr) => (⟨"", none, some e⟩, opts3, tr)
  | (none, opts3, tr) =>
    let name := opts3.GetImageName
    if opts3.ForcePull then
      let pull := fnPull w opts3
      (⟨name, none, pull.1⟩, opts3, tr ++ pull.2)
    else
      let tr := tr ++ [EngineCall.buildImage name opts3]
      match w.buildErr with
      | none => (⟨name, some w.buildOutput, none⟩, opts3, tr)
      | some e =>
        if ¬ goContains e.message "Cannot locate specified Dockerfile:" then
          (⟨name, none, some e⟩, opts3, tr)
        else
          let pull := fnPull w opts3
          match pull.1 with
          | some pe => (⟨name, none, some pe⟩, opts3, tr ++ pull.2)
          | none => (⟨name, some w.buildOutput, none⟩, opts3, tr ++ pull.2)

/-! ### Container lifecycle: find and list -/

/-- `docker.APIContainers`, the fields `docker.go` reads. -/
structure APIContainers where
  ID : String
  Image : String
deriving DecidableEq, Repr

/-- The name rewrite inside `FnFindContainer`: `gofn/` is prepended to an
image name that does not already start with `gofn` (no slash in the
check). -/
def normalizeFindName (imageName : String) : String :=
  if ¬ ("gofn".toList.isPrefixOf imageName.toList) then "gofn/" ++ imageName else imageName

/-- `FnFindContainer`: list all containers (the `Except` argument is the
outcome of `client.ListContainers`), prepend `gofn/` to an image name not
already starting with `gofn`, and return the first container whose image
equals it, else `ErrContainerNotFound`. -/
def fnFindContainer (listResult : Except GoError (List APIContainers))
    (imageName : String) : Except GoError APIContainers :=
  match listResult with
  | .error e => .error e
  | .ok containers =>
    let name := normalizeFindName imageName
    match containers.find? (fun v => v.Image = name) with
    | some v => .ok v
    | none => .error GoError.errContainerNotFound

/-- The loop body of `FnListContainers`: keep the containers whose image
starts with `gofn/`, in order. -/
def keepGofnContainers : List APIContainers → List APIContainers
  | [] => []
  | c :: rest =>
    if "gofn/".toList.isPrefixOf c.Image.toList then c :: keepGofnContainers rest
    else keepGofnContainers rest

/-- `FnListContainers`: list all containers on the engine and keep those
whose image carries the `gofn/` prefix; an engine error is returned with a
nil list. -/
def fnListContainers (listResult : Except GoError (List APIContainers)) :
    Except GoError (List APIContainers) :=
  match listResult with
  | .error e => .error e
  | .ok hostContainers => .ok (keepGofnContainers hostContainers)

/-! ## Theorems -/

theorem fnWaitContainerSends_ne_nil (code : Int) (err : Option GoError) :
    fnWaitContainerSends code err ≠ [] := by
  unfold fnWaitContainerSends
  cases err <;> simp

/-- The first value the goroutine sends — the one a single-read consumer
such as `FnRun` receives — follows the priority: wait error, else the
execution-failure sentinel on non-zero exit, else nil. -/
theorem fnWaitContainerSends_head (code : Int) (err : Option GoError) :
    (fnWaitContainerSends code err).headD none =
      match err with
      | some e => some e
      | none => if code ≠ 0 then some GoError.errContainerExecutionFailed else none := by
  unfold fnWaitContainerSends
  cases err <;> by_cases h : code = 0 <;> simp [h]

/-- C1. The claim that `FnWaitContainer` sends exactly one value on its
channel fails on the code: the goroutine body has no `return` after its
first two sends, so on a non-zero exit code it attempts two sends (the
sentinel and then nil), and on a wait error with non-zero code three;
only the clean-exit case sends exactly one value.  The first value does
follow the claimed priority, but a second (and third) send is attempted,
which blocks the goroutine forever under `FnRun`'s single read and
delivers spurious extra values to any consumer that keeps reading. -/
theorem fnWaitContainer_attempts_extra_sends :
    fnWaitContainerSends 1 none =
      [some GoError.errContainerExecutionFailed, none] ∧
    fnWaitContainerSends 2 (some (GoError.engineErr "wait: unexpected EOF")) =
      [some (GoError.engineErr "wait: unexpected EOF"),
       some GoError.errContainerExecutionFailed, none] ∧
    fnWaitContainerSends 0 none = [none] ∧
    waitSendCount 1 none = 2 := by
  decide

/-- C2. When start, attach and the wait call all succeed, `FnRun` returns
nil error and the captured stdout/stderr bytes for exit code 0, and the
`ErrContainerExecutionFailed` sentinel together with the captured bytes
for a non-zero exit code; the log-retrieval error (`w.logsErr`, arbitrary
here) never affects the outcome. -/
theorem fnRun_exit_classification (w : RunWorld)
    (hs : w.startErr = none) (ha : w.attachErr = none) (hw : w.waitErr = none) :
    (w.waitCode = 0 →
      (fnRun w).1 = ⟨some w.logsStdout, some w.logsStderr, none⟩) ∧
    (w.waitCode ≠ 0 →
      (fnRun w).1 = ⟨some w.logsStdout, some w.logsStderr,
        some GoError.errContainerExecutionFailed⟩) := by
  constructor <;> intro h0 <;>
    simp [fnRun, hs, ha, hw, h0, fnWaitContainerSends]

theorem fnRun_exit_classification_witness :
    (fnRun ⟨none, none, 0, none, "out bytes", "err bytes", none⟩).1 =
      ⟨some "out bytes", some "err bytes", none⟩ ∧
    (fnRun ⟨none, none, 2, none, "out bytes", "err bytes",
        some (GoError.engineErr "log fetch failed")⟩).1 =
      ⟨some "out bytes", some "err bytes",
        some GoError.errContainerExecutionFailed⟩ :=
  ⟨(fnRun_exit_classification _ rfl rfl rfl).1 rfl,
   (fnRun_exit_classification _ rfl rfl rfl).2 (by decide)⟩

/-- C9. A start or attach error makes `FnRun` return that error with nil
stdout and stderr and stop before the wait and logs stages; non-nil
buffers are only returned once the wait stage has been reached. -/
theorem fnRun_early_return (w : RunWorld) :
    (∀ e, w.startErr = some e →
      (fnRun w).1 = ⟨none, none, some e⟩ ∧ (fnRun w).2 = [RunEvent.start]) ∧
    (∀ e, w.startErr = none → w.attachErr = some e →
      (fnRun w).1 = ⟨none, none, some e⟩ ∧
      (fnRun w).2 = [RunEvent.start, RunEvent.attach]) ∧
    ((fnRun w).1.Stdout ≠ none ∨ (fnRun w).1.Stderr ≠ none →
      RunEvent.wait ∈ (fnRun w).2) := by
  refine ⟨?_, ?_, ?_⟩
  · intro e he
    simp [fnRun, he]
  · intro e hs ha
    simp [fnRun, hs, ha]
  · intro h
    cases hs : w.startErr with
    | some e => simp [fnRun, hs] at h
    | none =>
      cases ha : w.attachErr with
      | some e => simp [fnRun, hs, ha] at h
      | none => simp [fnRun, hs, ha]

theorem fnRun_early_return_witness :
    (fnRun ⟨some (GoError.engineErr "no such container"), none, 0, none,
        "", "", none⟩).1 =
      ⟨none, none, some (GoError.engineErr "no such container")⟩ ∧
    (fnRun ⟨none, some (GoError.engineErr "attach refused"), 0, none,
        "", "", none⟩).2 = [RunEvent.start, RunEvent.attach] :=
  ⟨((fnRun_early_return _).1 _ rfl).1,
   ((fnRun_early_return _).2.1 _ rfl rfl).2⟩

/-- C7. `FnListContainers` returns exactly the engine-reported containers
whose image starts with `gofn/`, in their reported order: its loop is the
list filter by that prefix test. -/
theorem fnListContainers_filters (l : List APIContainers) :
    fnListContainers (Except.ok l) =
      Except.ok (l.filter (fun c => "gofn/".toList.isPrefixOf c.Image.toList)) := by
  suffices h : keepGofnContainers l = l.filter (fun c => "gofn/".toList.isPrefixOf c.Image.toList) by
    simp [fnListContainers, h]
  induction l with
  | nil => simp [keepGofnContainers]
  | cons c rest ih =>
    by_cases hp : "gofn/".toList.isPrefixOf c.Image.toList <;>
      simp [keepGofnContainers, List.filter_cons, hp, ih]

/-- C6 counterexample. The claim's normalization — prepend the fixed
image prefix `gofn/` to any name not already carrying it — fails on the
code: the code's check is for the prefix `gofn` without the slash.  The
name `gofnx` does not carry the prefix `gofn/`, and a container whose
image is exactly `gofn/gofnx` (the claim's normalized name) exists, yet
`FnFindContainer` reports `ErrContainerNotFound` because it left the
name `gofnx` unnormalized. -/
theorem fnFindContainer_claim_counterexample :
    ¬ ("gofn/".toList <+: "gofnx".toList) ∧
    fnFindContainer (Except.ok [⟨"c1", "gofn/gofnx"⟩]) "gofnx" =
      Except.error GoError.errContainerNotFound := by
  decide

/-- C6 amended. The prefix test is `gofn` without the slash: a name not
starting with `gofn` is compared after prepending `gofn/`; a name already
starting with `gofn` (whether or not it carries `gofn/`) is compared
unchanged; if no listed container's image equals the rewritten name, the
container-not-found error is returned, and a found container is a listed
one whose image equals the rewritten name. -/
theorem fnFindContainer_normalization (cs : List APIContainers) (n : String) :
    ((∀ c ∈ cs, c.Image ≠ normalizeFindName n) →
      fnFindContainer (Except.ok cs) n = Except.error GoError.errContainerNotFound) ∧
    (∀ c, fnFindContainer (Except.ok cs) n = Except.ok c →
      c ∈ cs ∧ c.Image = normalizeFindName n) ∧
    (¬ ("gofn".toList <+: n.toList) → normalizeFindName n = "gofn/" ++ n) ∧
    (("gofn".toList <+: n.toList) → normalizeFindName n = n) := by
  refine ⟨?_, ?_, ?_, ?_⟩
  · intro hall
    have hfind : cs.find? (fun v => v.Image = normalizeFindName n) = none := by
      rw [List.find?_eq_none]
      intro c hc
      simpa using hall c hc
    simp [fnFindContainer, hfind]
  · intro c hc
    cases hfind : cs.find? (fun v => v.Image = normalizeFindName n) with
    | none => simp [fnFindContainer, hfind] at hc
    | some v =>
      have hv : v = c := by
        simpa [fnFindContainer, hfind] using hc
      subst hv
      exact ⟨List.mem_of_find?_eq_some hfind, by
        simpa using List.find?_some hfind⟩
  · intro hp
    have hp' : ¬ (['g', 'o', 'f', 'n'] <+: n.data) := hp
    simp [normalizeFindName, hp']
  · intro hp
    have hp' : ['g', 'o', 'f', 'n'] <+: n.data := hp
    simp [normalizeFindName, hp']

theorem fnFindContainer_normalization_witness :
    fnFindContainer (Except.ok [⟨"c1", "unrelated"⟩]) "abc" =
      Except.error GoError.errContainerNotFound ∧
    normalizeFindName "abc" = "gofn/abc" ∧
    normalizeFindName "gofn/abc" = "gofn/abc" :=
  ⟨(fnFindContainer_normalization [⟨"c1", "unrelated"⟩] "abc").1 (by decide),
   (fnFindContainer_normalization [] "abc").2.2.1 (by decide),
   (fnFindContainer_normalization [] "gofn/abc").2.2.2 (by decide)⟩

/-- C4. The repository/tag pair `FnPull` sends to `PullImage` for the
resolved name `opts.GetImageName()`: with a digest marker `@` and no
tag reported by the repository/tag split, the full name is the
repository and the tag is empty; with neither, the tag defaults to
`latest`; with an explicit tag, the split is sent unchanged. -/
theorem fnPull_repo_tag (w : BuildWorld) (opts : BuildOptions) :
    (('@' ∈ opts.GetImageName.toList ∧
        (parseRepositoryTag opts.GetImageName).2 = "") →
      (fnPull w opts).2 =
        [EngineCall.pullImage opts.GetImageName "" opts.Auth opts]) ∧
    (('@' ∉ opts.GetImageName.toList ∧
        (parseRepositoryTag opts.GetImageName).2 = "") →
      (fnPull w opts).2 =
        [EngineCall.pullImage (parseRepositoryTag opts.GetImageName).1
          "latest" opts.Auth opts]) ∧
    ((parseRepositoryTag opts.GetImageName).2 ≠ "" →
      (fnPull w opts).2 =
        [EngineCall.pullImage (parseRepositoryTag opts.GetImageName).1
          (parseRepositoryTag opts.GetImageName).2 opts.Auth opts]) := by
  refine ⟨?_, ?_, ?_⟩
  · rintro ⟨hat, htag⟩
    have hat' : '@' ∈ opts.GetImageName.data := hat
    simp [fnPull, parseDockerImage, htag, hat']
  · rintro ⟨hat, htag⟩
    have hat' : '@' ∉ opts.GetImageName.data := hat
    simp [fnPull, parseDockerImage, htag, hat']
  · intro htag
    simp [fnPull, parseDockerImage, htag]

theorem fnPull_repo_tag_witness :
    (fnPull ⟨Except.ok "", none, "", none⟩
        ⟨"", "", true, "repo@sha256:0a1b", "", "", (), ⟨"", "", "", "", ""⟩, false⟩).2 =
      [EngineCall.pullImage "repo@sha256:0a1b" ""
        ⟨"", "", "", "", ""⟩
        ⟨"", "", true, "repo@sha256:0a1b", "", "", (), ⟨"", "", "", "", ""⟩, false⟩] ∧
    (fnPull ⟨Except.ok "", none, "", none⟩
        ⟨"", "", true, "repo", "", "", (), ⟨"", "", "", "", ""⟩, false⟩).2 =
      [EngineCall.pullImage "repo" "latest"
        ⟨"", "", "", "", ""⟩
        ⟨"", "", true, "repo", "", "", (), ⟨"", "", "", "", ""⟩, false⟩] ∧
    (fnPull ⟨Except.ok "", none, "", none⟩
        ⟨"", "", true, "repo:1.2", "", "", (), ⟨"", "", "", "", ""⟩, false⟩).2 =
      [EngineCall.pullImage "repo" "1.2"
        ⟨"", "", "", "", ""⟩
        ⟨"", "", true, "repo:1.2", "", "", (), ⟨"", "", "", "", ""⟩, false⟩] :=
  ⟨(fnPull_repo_tag _ _).1 (by decide),
   (fnPull_repo_tag _ _).2.1 (by decide),
   (fnPull_repo_tag _ _).2.2 (by decide)⟩

/-! ### Helper lemmas about `applyBuildDefaults`, `auth` and `fnImageBuild` -/

theorem applyBuildDefaults_eq (o : BuildOptions) :
    applyBuildDefaults o =
      { o with
        Dockerfile := if o.Dockerfile = "" then "Dockerfile" else o.Dockerfile,
        ContextDir :=
          if o.ContextDir = "" ∧ o.RemoteURI = "" then "./" else o.ContextDir } := by
  unfold applyBuildDefaults
  by_cases h1 : o.Dockerfile = "" <;>
    by_cases h2 : o.ContextDir = "" ∧ o.RemoteURI = "" <;>
      simp [h1, h2]

/-- `credsPresent` reads only the identity and password fields. -/
theorem credsPresent_mk (u pw em sa it : String) :
    credsPresent ⟨u, pw, em, sa, it⟩ = ((em ≠ "" || u ≠ "") && pw ≠ "") := rfl

/-- What `auth` leaves in the options: only the `Auth` field changes, the
`ServerAddress` being defaulted exactly when credentials are present and
none was set, and the `IdentityToken` being overwritten exactly when
credentials are present and the auth check succeeds. -/
theorem auth_final (w : BuildWorld) (o : BuildOptions) :
    (auth w o).2.1 =
      { o with Auth := { o.Auth with
          ServerAddress :=
            if credsPresent o.Auth = true ∧ o.Auth.ServerAddress = ""
            then "https://index.docker.io/v1/" else o.Auth.ServerAddress,
          IdentityToken :=
            if credsPresent o.Auth = true then
              (match w.authStatus with
               | Except.ok t => t
               | Except.error _ => o.Auth.IdentityToken)
            else o.Auth.IdentityToken } } := by
  obtain ⟨cd, df, dnp, im, ru, si, ia, ⟨u, pw, em, sa, it⟩, fp⟩ := o
  unfold auth
  by_cases h : (¬em = "" ∨ ¬u = "") ∧ ¬pw = "" <;>
    by_cases h2 : sa = "" <;>
      cases hs : w.authStatus <;>
        simp [credsPresent_mk, h, h2]

theorem auth_fst (w : BuildWorld) (o : BuildOptions) :
    (auth w o).1 =
      (if credsPresent o.Auth = true then
        (match w.authStatus with
         | Except.ok _ => none
         | Except.error e => some e)
      else none) := by
  unfold auth
  by_cases h : credsPresent o.Auth <;>
    by_cases h2 : o.Auth.ServerAddress = "" <;>
      cases hs : w.authStatus <;>
        simp [h, h2]

theorem auth_countPull (w : BuildWorld) (o : BuildOptions) :
    ((auth w o).2.2).countP isPullCall = 0 := by
  unfold auth
  by_cases h : credsPresent o.Auth <;>
    by_cases h2 : o.Auth.ServerAddress = "" <;>
      cases hs : w.authStatus <;>
        simp [h, h2, isPullCall]

theorem auth_calls (w : BuildWorld) (o : BuildOptions) :
    ∀ call ∈ (auth w o).2.2, ∃ a, call.snapshot = { o with Auth := a } := by
  unfold auth
  by_cases h : credsPresent o.Auth <;>
    by_cases h2 : o.Auth.ServerAddress = "" <;>
      cases hs : w.authStatus <;>
        simp [h, h2, EngineCall.snapshot] <;>
          exact ⟨_, rfl⟩

/-- Every branch of `fnImageBuild` returns the options as `auth` left
them: the build/pull stages never mutate the options further. -/
theorem fnImageBuild_finalOpts (w : BuildWorld) (opts : BuildOptions) :
    (fnImageBuild w opts).2.1 = (auth w (applyBuildDefaults opts)).2.1 := by
  unfold fnImageBuild
  rcases hA : auth w (applyBuildDefaults opts) with ⟨err3, o3, tr3⟩
  cases err3 with
  | some e => simp
  | none =>
    by_cases hfp : o3.ForcePull = true
    · simp [hfp]
    · cases hb : w.buildErr with
      | none => simp [hfp, hb]
      | some e =>
        by_cases hdf : goContains e.message "Cannot locate specified Dockerfile:" = true
        · cases hpe : w.pullErr <;> simp [hfp, hb, hdf, fnPull, hpe]
        · simp [hfp, hb, hdf]

/-- Every engine call `fnImageBuild` makes is against an options snapshot
whose `ContextDir` is the defaulted one. -/
theorem fnImageBuild_calls_context (w : BuildWorld) (opts : BuildOptions) :
    ∀ call ∈ (fnImageBuild w opts).2.2,
      call.snapshot.ContextDir = (applyBuildDefaults opts).ContextDir := by
  have hauthcd : ((auth w (applyBuildDefaults opts)).2.1).ContextDir =
      (applyBuildDefaults opts).ContextDir := by
    rw [auth_final]
  have hauthcalls := auth_calls w (applyBuildDefaults opts)
  unfold fnImageBuild
  rcases hA : auth w (applyBuildDefaults opts) with ⟨err3, o3, tr3⟩
  rw [hA] at hauthcd hauthcalls
  have htr3 : ∀ call ∈ tr3, call.snapshot.ContextDir = (applyBuildDefaults opts).ContextDir := by
    intro call hcall
    obtain ⟨a, ha⟩ := hauthcalls call hcall
    rw [ha]
  cases err3 with
  | some e => simpa using htr3
  | none =>
    by_cases hfp : o3.ForcePull = true
    · simp only [hfp, if_true, fnPull]
      intro call hcall
      simp only [List.mem_append, List.mem_singleton] at hcall
      rcases hcall with h | h
      · exact htr3 call h
      · subst h
        exact hauthcd
    · cases hb : w.buildErr with
      | none =>
        simp only [hfp, hb, if_false, Bool.false_eq_true]
        intro call hcall
        simp only [List.mem_append, List.mem_singleton] at hcall
        rcases hcall with h | h
        · exact htr3 call h
        · subst h
          exact hauthcd
      | some e =>
        by_cases hdf : goContains e.message "Cannot locate specified Dockerfile:" = true
        · cases hpe : w.pullErr <;>
          · simp only [hfp, hb, hdf, fnPull, hpe, Bool.false_eq_true, if_false]
            intro call hcall
            have hcall' : call ∈ tr3 ∨ call = EngineCall.buildImage o3.GetImageName o3 ∨
                call = EngineCall.pullImage (parseDockerImage o3.GetImageName).1
                  (parseDockerImage o3.GetImageName).2 o3.Auth o3 := by
              simpa [or_assoc] using hcall
            rcases hcall' with h | h | h
            · exact htr3 call h
            · subst h
              exact hauthcd
            · subst h
              exact hauthcd
        · simp only [hfp, hb, hdf, Bool.false_eq_true, if_false]
          intro call hcall
          have hcall' : call ∈ tr3 ∨ call = EngineCall.buildImage o3.GetImageName o3 := by
            simpa using hcall
          rcases hcall' with h | h
          · exact htr3 call h
          · subst h
            exact hauthcd

/-- C8. For options with both `ContextDir` and `RemoteURI` empty, the
context directory is set to `./` before any engine call: the final
options carry `./`, and every engine call in the trace (auth check,
build, or pull) was made against a snapshot whose `ContextDir` is
already `./`. -/
theorem fnImageBuild_context_default (w : BuildWorld) (opts : BuildOptions)
    (hc : opts.ContextDir = "") (hr : opts.RemoteURI = "") :
    (fnImageBuild w opts).2.1.ContextDir = "./" ∧
    ∀ call ∈ (fnImageBuild w opts).2.2, call.snapshot.ContextDir = "./" := by
  have hd : (applyBuildDefaults opts).ContextDir = "./" := by
    rw [applyBuildDefaults_eq]
    simp [hc, hr]
  constructor
  · rw [fnImageBuild_finalOpts, auth_final]
    exact hd
  · intro call hcall
    rw [fnImageBuild_calls_context w opts call hcall]
    exact hd

theorem fnImageBuild_context_default_witness :
    (fnImageBuild ⟨Except.ok "", none, "", none⟩
        ⟨"", "", false, "img", "", "", (), ⟨"", "", "", "", ""⟩, false⟩).2.1.ContextDir =
      "./" :=
  (fnImageBuild_context_default ⟨Except.ok "", none, "", none⟩
    ⟨"", "", false, "img", "", "", (), ⟨"", "", "", "", ""⟩, false⟩ rfl rfl).1

/-- C10 counterexample. With credentials present but a custom
`ServerAddress` already set, the auth step does not write the default
server address: afterwards the options still carry the custom address
(while the identity token from the successful auth check was written).
The claim's "writes the default server address ... when credentials are
present" is therefore false as stated. -/
theorem fnImageBuild_server_address_counterexample :
    credsPresent ⟨"user", "secret", "", "https://registry.example/v2/", ""⟩ = true ∧
    (fnImageBuild ⟨Except.ok "token123", none, "", none⟩
        ⟨"ctx", "Dockerfile", false, "img", "", "", (),
          ⟨"user", "secret", "", "https://registry.example/v2/", ""⟩, false⟩).2.1.Auth.ServerAddress =
      "https://registry.example/v2/" ∧
    (fnImageBuild ⟨Except.ok "token123", none, "", none⟩
        ⟨"ctx", "Dockerfile", false, "img", "", "", (),
          ⟨"user", "secret", "", "https://registry.example/v2/", ""⟩, false⟩).2.1.Auth.IdentityToken =
      "token123" := by
  refine ⟨rfl, rfl, rfl⟩

/-- C10 amended. `FnImageBuild` mutates the caller's options exactly as
follows: an empty `Dockerfile` is set to `Dockerfile`; an empty context
with no remote URI is set to `./`; with credentials present the auth step
writes the default server address only when no server address was set,
and writes the obtained identity token only when the auth check
succeeds; every other field (including the remaining `Auth` fields) is
unchanged. -/
theorem fnImageBuild_mutation (w : BuildWorld) (opts : BuildOptions) :
    (fnImageBuild w opts).2.1 =
      { opts with
        Dockerfile := if opts.Dockerfile = "" then "Dockerfile" else opts.Dockerfile,
        ContextDir :=
          if opts.ContextDir = "" ∧ opts.RemoteURI = "" then "./" else opts.ContextDir,
        Auth := { opts.Auth with
          ServerAddress :=
            if credsPresent opts.Auth = true ∧ opts.Auth.ServerAddress = ""
            then "https://index.docker.io/v1/" else opts.Auth.ServerAddress,
          IdentityToken :=
            if credsPresent opts.Auth = true then
              (match w.authStatus with
               | Except.ok t => t
               | Except.error _ => opts.Auth.IdentityToken)
            else opts.Auth.IdentityToken } } := by
  rw [fnImageBuild_finalOpts, auth_final, applyBuildDefaults_eq]

/-- C3. With `ForcePull` unset (and the auth step not failing, so the
build call is reached): a successful build attempts no pull; a build
error without the `Cannot locate specified Dockerfile:` substring is
returned as-is with no pull attempted; a build error carrying that
substring triggers exactly one pull, made last, with the
repository/tag split of the already-resolved image name (the `Name`
the call returns). -/
theorem fnImageBuild_pull_fallback (w : BuildWorld) (opts : BuildOptions)
    (hfp : opts.ForcePull = false)
    (hauth : credsPresent opts.Auth = false ∨ ∃ t, w.authStatus = Except.ok t) :
    (w.buildErr = none →
      ((fnImageBuild w opts).2.2).countP isPullCall = 0) ∧
    (∀ e, w.buildErr = some e →
      goContains e.message "Cannot locate specified Dockerfile:" = false →
      (fnImageBuild w opts).1.err = some e ∧
      ((fnImageBuild w opts).2.2).countP isPullCall = 0) ∧
    (∀ e, w.buildErr = some e →
      goContains e.message "Cannot locate specified Dockerfile:" = true →
      ((fnImageBuild w opts).2.2).countP isPullCall = 1 ∧
      ((fnImageBuild w opts).2.2).getLast? = some
        (EngineCall.pullImage
          (parseDockerImage ((fnImageBuild w opts).1.Name)).1
          (parseDockerImage ((fnImageBuild w opts).1.Name)).2
          ((fnImageBuild w opts).2.1).Auth
          ((fnImageBuild w opts).2.1))) := by
  have h1 : (auth w (applyBuildDefaults opts)).1 = none := by
    rw [auth_fst]
    have hca : credsPresent (applyBuildDefaults opts).Auth = credsPresent opts.Auth := by
      rw [applyBuildDefaults_eq]
    rcases hauth with h | ⟨t, ht⟩
    · simp [hca, h]
    · simp [hca, ht]
  have hcnt0 := auth_countPull w (applyBuildDefaults opts)
  have hfin := auth_final w (applyBuildDefaults opts)
  unfold fnImageBuild
  rcases hA : auth w (applyBuildDefaults opts) with ⟨err3, o3, tr3⟩
  rw [hA] at h1 hcnt0 hfin
  have herr3 : err3 = none := h1
  subst herr3
  have hcnt : tr3.countP isPullCall = 0 := hcnt0
  have ho3 : o3 = _ := hfin
  have hfp3 : o3.ForcePull = false := by
    rw [ho3, applyBuildDefaults_eq]
    exact hfp
  refine ⟨?_, ?_, ?_⟩
  · intro hb
    simp only [hfp3, Bool.false_eq_true, if_false, hb]
    simp [List.countP_append, hcnt, isPullCall]
  · intro e hb hdf
    simp only [hfp3, Bool.false_eq_true, if_false, hb, hdf]
    constructor
    · simp
    · simp [List.countP_append, hcnt, isPullCall]
  · intro e hb hdf
    simp only [hfp3, Bool.false_eq_true, if_false, hb, hdf, fnPull]
    cases hpe : w.pullErr <;>
      · simp only [hpe]
        constructor
        · simp [List.countP_append, hcnt, isPullCall]
        · simp

theorem fnImageBuild_pull_fallback_witness :
    ((fnImageBuild
        ⟨Except.ok "",
          some (GoError.engineErr "Error: Cannot locate specified Dockerfile: Dockerfile"),
          "", none⟩
        ⟨"", "", false, "img", "", "", (), ⟨"", "", "", "", ""⟩, false⟩).2.2).countP
      isPullCall = 1 :=
  ((fnImageBuild_pull_fallback
      ⟨Except.ok "",
        some (GoError.engineErr "Error: Cannot locate specified Dockerfile: Dockerfile"),
        "", none⟩
      ⟨"", "", false, "img", "", "", (), ⟨"", "", "", "", ""⟩, false⟩
      rfl (Or.inl rfl)).2.2 _ rfl (by decide)).1

/-! ### Lemmas about `splitSlash`, `joinSlash`, `cleanStack` for C5 -/

theorem splitSlash_ne_nil (l : List Char) : splitSlash l ≠ [] := by
  cases l with
  | nil => simp [splitSlash]
  | cons c rest =>
    by_cases h : c = '/'
    · simp [splitSlash, h]
    · simp only [splitSlash, h, if_false]
      cases hs : splitSlash rest <;> simp

theorem joinSlash_cons (x : List Char) (xs : List (List Char)) (h : xs ≠ []) :
    joinSlash (x :: xs) = x ++ '/' :: joinSlash xs := by
  cases xs with
  | nil => exact absurd rfl h
  | cons y ys => rfl

theorem joinSlash_splitSlash (l : List Char) : joinSlash (splitSlash l) = l := by
  induction l with
  | nil => rfl
  | cons c rest ih =>
    by_cases h : c = '/'
    · subst h
      rw [show splitSlash ('/' :: rest) = [] :: splitSlash rest from by simp [splitSlash]]
      rw [joinSlash_cons _ _ (splitSlash_ne_nil rest)]
      simp [ih]
    · rcases hs : splitSlash rest with _ | ⟨hd, t⟩
      · exact absurd hs (splitSlash_ne_nil rest)
      · rw [show splitSlash (c :: rest) = (c :: hd) :: t from by simp [splitSlash, h, hs]]
        cases t with
        | nil =>
          have hrest : hd = rest := by
            rw [hs] at ih
            simpa [joinSlash] using ih
          simp [joinSlash, hrest]
        | cons z zs =>
          rw [joinSlash_cons _ _ (by simp)]
          rw [hs, joinSlash_cons _ _ (by simp)] at ih
          rw [List.cons_append, ih]

theorem cleanStack_simple (rooted : Bool) (cs : List (List Char))
    (h : ∀ c ∈ cs, c ≠ [] ∧ c ≠ ['.'] ∧ c ≠ ['.', '.']) :
    ∀ acc, cleanStack rooted acc cs = acc.reverse ++ cs := by
  induction cs with
  | nil =>
    intro acc
    simp [cleanStack]
  | cons c rest ih =>
    intro acc
    obtain ⟨h1, h2, h3⟩ := h c (by simp)
    have hcond : ¬ (c = [] ∨ c = ['.']) := by simp [h1, h2]
    rw [show cleanStack rooted acc (c :: rest) = cleanStack rooted (c :: acc) rest from by
      simp [cleanStack, hcond, h3]]
    rw [ih (fun x hx => h x (by simp [hx])) (c :: acc)]
    simp

theorem splitSlash_gofn (ys : List Char) :
    splitSlash ('g' :: 'o' :: 'f' :: 'n' :: '/' :: ys) =
      ['g', 'o', 'f', 'n'] :: splitSlash ys := by
  rcases hs : splitSlash ys with _ | ⟨hd, t⟩
  · exact absurd hs (splitSlash_ne_nil ys)
  · simp [splitSlash, hs]

/-- `path.Join("gofn", name)` is `"gofn/" ++ name` whenever every
slash-separated segment of `name` is non-empty and neither `.` nor `..`
(so `path.Clean` has nothing to rewrite). -/
theorem pathJoin_gofn_simple (name : String)
    (h : ∀ c ∈ splitSlash name.toList, c ≠ [] ∧ c ≠ ['.'] ∧ c ≠ ['.', '.']) :
    pathJoin "gofn" name = "gofn/" ++ name := by
  have hjoin : "gofn" ++ "/" ++ name = "gofn/" ++ name := by
    rw [show "gofn" ++ "/" = "gofn/" by decide]
  have hd : ("gofn/" ++ name).toList = 'g' :: 'o' :: 'f' :: 'n' :: '/' :: name.toList := rfl
  have hne : ¬ ("gofn/" ++ name = "") := by
    intro hcontra
    have : ("gofn/" ++ name).toList = [] := by rw [hcontra]; rfl
    rw [hd] at this
    exact List.noConfusion this
  have hroot : ¬ (("gofn/" ++ name).toList.head? = some '/') := by
    rw [hd]
    simp
  have hall : ∀ c ∈ ['g', 'o', 'f', 'n'] :: splitSlash name.toList,
      c ≠ [] ∧ c ≠ ['.'] ∧ c ≠ ['.', '.'] := by
    intro c hc
    rcases List.mem_cons.1 hc with hc | hc
    · subst hc
      refine ⟨by simp, by simp, by simp⟩
    · exact h c hc
  have hclean : cleanStack false [] (splitSlash (("gofn/" ++ name).toList)) =
      ['g', 'o', 'f', 'n'] :: splitSlash name.toList := by
    rw [hd, splitSlash_gofn, cleanStack_simple false _ hall []]
    rfl
  have hjoined : joinSlash (cleanStack false [] (splitSlash (("gofn/" ++ name).toList))) =
      'g' :: 'o' :: 'f' :: 'n' :: '/' :: name.toList := by
    rw [hclean, joinSlash_cons _ _ (splitSlash_ne_nil name.toList),
      joinSlash_splitSlash]
    rfl
  rw [pathJoin, if_pos (by decide), hjoin, pathClean, if_neg hne, if_neg hroot,
    if_neg (by rw [hjoined]; exact fun hcontra => List.noConfusion hcontra), hjoined]
  exact rfl

/-- C5 counterexample. With the prefix flag unset and an empty image
name, `GetImageName` returns `gofn` (because `path.Join` cleans the
joined path), not `gofn/` as prefix-plus-name concatenation would
give. -/
theorem GetImageName_empty_name_counterexample :
    BuildOptions.GetImageName ⟨"", "", false, "", "", "", (), ⟨"", "", "", "", ""⟩, false⟩ =
      "gofn" ∧
    "gofn" ≠ "gofn/" ++ "" := by
  constructor
  · decide
  · decide

/-- C5 amended. With `DoNotUsePrefixImageName` set, `GetImageName`
returns the image name unchanged.  With it unset, it returns
`path.Join("gofn", name)`, which equals `"gofn/" ++ name` whenever every
slash-separated segment of the name is non-empty and neither `.` nor
`..`; path cleaning makes the two differ for names outside that set
(such as the empty name). -/
theorem GetImageName_prefixing (opts : BuildOptions) :
    (opts.DoNotUsePrefixImageName = true → opts.GetImageName = opts.ImageName) ∧
    (opts.DoNotUsePrefixImageName = false →
      opts.GetImageName = pathJoin "gofn" opts.ImageName ∧
      ((∀ c ∈ splitSlash opts.ImageName.toList, c ≠ [] ∧ c ≠ ['.'] ∧ c ≠ ['.', '.']) →
        opts.GetImageName = "gofn/" ++ opts.ImageName)) := by
  refine ⟨?_, ?_⟩
  · intro hflag
    simp [BuildOptions.GetImageName, hflag]
  · intro hflag
    constructor
    · simp [BuildOptions.GetImageName, hflag]
    · intro hsimple
      rw [show opts.GetImageName = pathJoin "gofn" opts.ImageName from by
        simp [BuildOptions.GetImageName, hflag]]
      exact pathJoin_gofn_simple opts.ImageName hsimple

theorem GetImageName_prefixing_witness :
    BuildOptions.GetImageName
        ⟨"", "", false, "library/redis", "", "", (), ⟨"", "", "", "", ""⟩, false⟩ =
      "gofn/" ++ "library/redis" ∧
    BuildOptions.GetImageName
        ⟨"", "", true, "library/redis", "", "", (), ⟨"", "", "", "", ""⟩, false⟩ =
      "library/redis" :=
  ⟨((GetImageName_prefixing
      ⟨"", "", false, "library/redis", "", "", (), ⟨"", "", "", "", ""⟩, false⟩).2
        rfl).2 (by decide),
   (GetImageName_prefixing
      ⟨"", "", true, "library/redis", "", "", (), ⟨"", "", "", "", ""⟩, false⟩).1 rfl⟩

end Gofn
